import Mathlib

/-!
Verification of the transaction-broadcast subsystem of
`substrate/client/rpc-spec-v2/src/transaction` (the Broadcast Operation
Manager: operation registry, per-operation broadcast driver, and the
`broadcast` / `stop` request handlers), checked against its observable
behaviour as pinned by `transaction/tests/transaction_broadcast_tests.rs`.

Only the test file of the subsystem is present in the source tree; the
implementation itself (`transaction_broadcast.rs` and `transaction/error.rs`
of `sc-rpc-spec-v2`) is absent, so the model below is built from the
specification's component design (registry, driver state machine, manager)
and cross-checked against the behaviour the test file asserts.
-/

/-- Modelled from the spec: `PoolStatus`, the externally-defined pool status
enumeration (`sc_transaction_pool_api::TransactionStatus`, not in the source
tree; the tests observe it as `TxStatusTypeTest`). Blocks and indices are
abstracted to naturals. -/
inductive TransactionStatus where
  | future
  | ready
  | inBlock (block : Nat) (idx : Nat)
  | finalized (block : Nat) (idx : Nat)
  | finalityTimeout
  | invalid
  | dropped
  | usurped
  | retracted
deriving DecidableEq

/-- Modelled from the spec: the terminal members of `PoolStatus` are
Finalized, FinalityTimeout, Invalid, Dropped, Usurped; Future, Ready,
InBlock, Retracted are non-terminal. -/
def TransactionStatus.isTerminal : TransactionStatus → Bool
  | .finalized _ _ => true
  | .finalityTimeout => true
  | .invalid => true
  | .dropped => true
  | .usurped => true
  | _ => false

/-- Modelled from the spec: the phases of one Broadcast Driver's state
machine (`AwaitingFirstBlock → Tracking → Terminated`).  `tracking` carries
whether the current status stream is still open (it may close without a
terminal event on pool eviction).  `decodeFailedPending` is the state of a
spawned driver task whose transaction blob will fail to decode the moment
the task is first polled: the manager spawns the driver even for an
undecodable blob, and the driver synthesizes an immediate Terminated
transition with no submission. -/
inductive DriverPhase where
  | decodeFailedPending
  | awaitingFirstBlock
  | tracking (streamOpen : Bool)
  | terminated
deriving DecidableEq

/-- Modelled from the spec: the events one driver task can observe, i.e. the
sources raced over at its suspension points (block-import stream, pool status
stream, cancellation signal), plus the closing of either stream. -/
inductive DriverEvent where
  | blockNote (block : Nat)
  | statusUpdate (s : TransactionStatus)
  | streamClosed
  | blockSourceClosed
  | cancelled
deriving DecidableEq

/-- Modelled from the spec: the externally visible side effects a driver step
can produce: submitting the transaction to the pool against a block (and
obtaining a status stream), recording a non-terminal status, a best-effort
request to the pool to stop tracking, and removing its own registry entry. -/
inductive DriverAction where
  | submit (block : Nat)
  | record (s : TransactionStatus)
  | untrack
  | removeSelf
deriving DecidableEq

/-- Modelled from the spec: one transition of the Broadcast Driver state
machine (spec section 4.3), as a pure step function from phase and observed
event to successor phase plus emitted actions.

* `decodeFailedPending`: whenever the task runs at all it terminates at once,
  removing itself, with no pool interaction.
* `AwaitingFirstBlock`: the first best-block event triggers the submission
  against that block, a status stream is obtained and the driver moves to
  `Tracking`; cancellation (or the block source closing) terminates without
  ever submitting.
* `Tracking`: a non-terminal status is recorded; a terminal status removes the
  registry entry and terminates; a closed status stream marks tracking lost;
  a best-block event resubmits exactly when tracking was lost, and is a no-op
  otherwise; cancellation requests best-effort untracking, removes the entry
  and terminates; a permanently closed block source terminates.
* `Terminated` is absorbing with no actions. -/
def driverStep : DriverPhase → DriverEvent → DriverPhase × List DriverAction
  | .decodeFailedPending, _ => (.terminated, [.removeSelf])
  | .awaitingFirstBlock, .blockNote b => (.tracking true, [.submit b])
  | .awaitingFirstBlock, .cancelled => (.terminated, [.removeSelf])
  | .awaitingFirstBlock, .blockSourceClosed => (.terminated, [.removeSelf])
  | .awaitingFirstBlock, _ => (.awaitingFirstBlock, [])
  | .tracking so, .statusUpdate s =>
      if s.isTerminal then (.terminated, [.removeSelf])
      else (.tracking so, [.record s])
  | .tracking _, .streamClosed => (.tracking false, [])
  | .tracking true, .blockNote _ => (.tracking true, [])
  | .tracking false, .blockNote b => (.tracking true, [.submit b])
  | .tracking _, .cancelled => (.terminated, [.untrack, .removeSelf])
  | .tracking _, .blockSourceClosed => (.terminated, [.removeSelf])
  | .terminated, _ => (.terminated, [])

/-- Running a driver over a sequence of observed events, collecting the
emitted actions in order. -/
def driverRun : DriverPhase → List DriverEvent → DriverPhase × List DriverAction
  | ph, [] => (ph, [])
  | ph, e :: rest =>
    let st := driverStep ph e
    let rst := driverRun st.1 rest
    (rst.1, st.2 ++ rst.2)

/-- Whether an action is a pool submission. -/
def DriverAction.isSubmit : DriverAction → Bool
  | .submit _ => true
  | _ => false

/-- Whether an event is a best-block import event. -/
def DriverEvent.isBlockNote : DriverEvent → Bool
  | .blockNote _ => true
  | _ => false

/-- Modelled from the spec: the request errors of the control protocol
surface.  `transaction/error.rs` (defining `json_rpc_spec` and the error
payloads) is not in the source tree; the tests pin that both errors carry
`json_rpc_spec::INVALID_PARAM_ERROR` as their code and the messages
"Invalid params" and "Invalid operation id". -/
inductive RpcError where
  | invalidParams
  | invalidOperationId
deriving DecidableEq

/-- Modelled from the spec: the JSON-RPC invalid-params error code shared by
both request errors (`json_rpc_spec::INVALID_PARAM_ERROR`, the standard
JSON-RPC invalid-params code). -/
def INVALID_PARAM_ERROR : Int := -32602

/-- Numeric JSON-RPC error code of a request error. -/
def RpcError.code : RpcError → Int
  | .invalidParams => INVALID_PARAM_ERROR
  | .invalidOperationId => INVALID_PARAM_ERROR

/-- Message string of a request error. -/
def RpcError.message : RpcError → String
  | .invalidParams => "Invalid params"
  | .invalidOperationId => "Invalid operation id"

/-- Modelled from the spec: the per-operation bookkeeping of one spawned
driver task: its phase, the receiving side of its cancellation signal
(`cancelSignalled` is set by the stop handler), the blocks at which it has
submitted the transaction to the pool so far, the last recorded non-terminal
status, and how many best-effort untrack requests it has issued. -/
structure OpState where
  phase : DriverPhase
  cancelSignalled : Bool
  submits : List Nat
  lastStatus : Option TransactionStatus
  untracks : Nat
deriving DecidableEq

/-- The operation state of a freshly spawned driver: awaiting the first block
if the blob decodes, otherwise pending its immediate decode-failure exit. -/
def initOp (decodeOk : Bool) : OpState :=
  { phase := if decodeOk then .awaitingFirstBlock else .decodeFailedPending
    cancelSignalled := false
    submits := []
    lastStatus := none
    untracks := 0 }

/-- Modelled from the spec: the state of the Broadcast Operation Manager:
the fresh-id counter, the Operation Registry (the set of live operation ids
whose cancellation handles it holds), the spawned driver tasks keyed by id
(kept after termination, as history), and the multiset of ids whose registry
entry was effectively removed (each effective removal appends the id). -/
structure Sys where
  nextId : Nat
  registry : List Nat
  ops : List (Nat × OpState)
  removals : List Nat
deriving DecidableEq

/-- The initial manager state: no operation ever issued. -/
def sysInit : Sys := { nextId := 0, registry := [], ops := [], removals := [] }

/-- First-match lookup in the driver-task table. -/
def lookupOp : List (Nat × OpState) → Nat → Option OpState
  | [], _ => none
  | (k, v) :: rest, id => if k = id then some v else lookupOp rest id

/-- First-match update in the driver-task table. -/
def updateOp : List (Nat × OpState) → Nat → (OpState → OpState) → List (Nat × OpState)
  | [], _, _ => []
  | (k, v) :: rest, id, f =>
      if k = id then (k, f v) :: rest else (k, v) :: updateOp rest id f

/-- Modelled from the spec: `Registry.remove`: atomically removes the entry
if present; the Boolean records whether a handle was actually observed. -/
def registryRemove (r : List Nat) (id : Nat) : Bool × List Nat :=
  (decide (id ∈ r), r.filter (fun x => x ≠ id))

/-- Apply one driver action to the manager state on behalf of operation
`id`: a submission or a status record updates the operation's bookkeeping;
`removeSelf` removes the registry entry when it is still present (an absent
entry means cancellation already removed it — treated as already handled,
not an error). -/
def applyAction (s : Sys) (id : Nat) : DriverAction → Sys
  | .submit b => { s with ops := updateOp s.ops id (fun op => { op with submits := op.submits ++ [b] }) }
  | .record st => { s with ops := updateOp s.ops id (fun op => { op with lastStatus := some st }) }
  | .untrack => { s with ops := updateOp s.ops id (fun op => { op with untracks := op.untracks + 1 }) }
  | .removeSelf =>
      let rem := registryRemove s.registry id
      if rem.1 then { s with registry := rem.2, removals := id :: s.removals } else s

/-- Apply a list of driver actions in order. -/
def applyActions (s : Sys) (id : Nat) (acts : List DriverAction) : Sys :=
  acts.foldl (fun st a => applyAction st id a) s

/-- Modelled from the spec: `broadcast(encoded_tx)` (spec section 4.4).
Fails with InvalidParams when the top-level protocol arguments are malformed,
before decoding and before any identifier is allocated.  Otherwise allocates
a fresh OperationId, inserts its cancellation handle into the Registry and
spawns the driver task even when the transaction blob fails to decode,
returning the id unconditionally. -/
def sysBroadcast (s : Sys) (wellFormed : Bool) (decodeOk : Bool) :
    Except RpcError (Nat × Sys) :=
  if wellFormed then
    .ok (s.nextId,
      { nextId := s.nextId + 1
        registry := s.nextId :: s.registry
        ops := (s.nextId, initOp decodeOk) :: s.ops
        removals := s.removals })
  else
    .error .invalidParams

/-- Modelled from the spec: `stop(operation_id)` delegating to
`Registry.cancel`: if the id is absent it fails with InvalidOperationId;
if present, the entry is removed and cancellation is signalled to the
driver through the handle, without waiting for the task to unwind. -/
def sysStop (s : Sys) (id : Nat) : Except RpcError Sys :=
  let rem := registryRemove s.registry id
  if rem.1 then
    .ok { s with
            registry := rem.2
            removals := id :: s.removals
            ops := updateOp s.ops id (fun op => { op with cancelSignalled := true }) }
  else
    .error .invalidOperationId

/-- The scheduler lets the driver task of operation `id` observe event `e`:
the driver's step function runs and its actions are applied.  A cancellation
observation is only deliverable once the stop handler has signalled it. -/
def sysDeliver (s : Sys) (id : Nat) (e : DriverEvent) : Sys :=
  match lookupOp s.ops id with
  | none => s
  | some op =>
      if e = .cancelled ∧ op.cancelSignalled = false then s
      else
        let st := driverStep op.phase e
        applyActions
          { s with ops := updateOp s.ops id (fun o => { o with phase := st.1 }) }
          id st.2

/-- The events of the whole system: client requests interleaved with
scheduler steps of the driver tasks. -/
inductive SysEvent where
  | broadcastReq (wellFormed : Bool) (decodeOk : Bool)
  | stopReq (id : Nat)
  | drv (id : Nat) (e : DriverEvent)
deriving DecidableEq

/-- One interleaving step of the whole system (client responses are
discarded here; the request handlers above expose them). -/
def sysStep (s : Sys) : SysEvent → Sys
  | .broadcastReq wf dec =>
      match sysBroadcast s wf dec with
      | .ok r => r.2
      | .error _ => s
  | .stopReq id =>
      match sysStop s id with
      | .ok s1 => s1
      | .error _ => s
  | .drv id e => sysDeliver s id e

/-- A run of the whole system from a state over an interleaving. -/
def sysRun (s : Sys) (evs : List SysEvent) : Sys := evs.foldl sysStep s

/-- Whether the driver task of `id` is still running and not yet cancelled
(spawned, not terminated, cancellation not signalled) in a driver table. -/
def runningOf (ops : List (Nat × OpState)) (id : Nat) : Bool :=
  match lookupOp ops id with
  | some op => !(decide (op.phase = .terminated)) && !op.cancelSignalled
  | none => false

/-- Whether the registry entry of `id` has been relinquished: a driver for
`id` was spawned and has since terminated or been signalled cancellation. -/
def removedOf (ops : List (Nat × OpState)) (id : Nat) : Bool :=
  match lookupOp ops id with
  | some op => decide (op.phase = .terminated) || op.cancelSignalled
  | none => false

/-- The manager invariant: ids are bounded by the fresh counter, an id is in
the Registry exactly while its driver is running and uncancelled (spec
invariant I1), and each id's registry entry has been effectively removed
exactly once if its driver has terminated or been cancelled, and never
otherwise (spec invariant I3). -/
def SysInv (s : Sys) : Prop :=
  (∀ id ∈ s.registry, id < s.nextId) ∧
  (∀ p ∈ s.ops, p.1 < s.nextId) ∧
  (∀ id, id ∈ s.registry ↔ runningOf s.ops id = true) ∧
  (∀ id, s.removals.count id = if removedOf s.ops id then 1 else 0)

theorem lookupOp_updateOp_self (ops : List (Nat × OpState)) (id : Nat)
    (f : OpState → OpState) :
    lookupOp (updateOp ops id f) id = (lookupOp ops id).map f := by
  induction ops with
  | nil => rfl
  | cons p rest ih =>
    obtain ⟨k, v⟩ := p
    by_cases hk : k = id <;> simp [updateOp, lookupOp, hk, ih]

theorem lookupOp_updateOp_ne (ops : List (Nat × OpState)) {id idb : Nat}
    (f : OpState → OpState) (h : idb ≠ id) :
    lookupOp (updateOp ops id f) idb = lookupOp ops idb := by
  induction ops with
  | nil => rfl
  | cons p rest ih =>
    obtain ⟨k, v⟩ := p
    by_cases hk : k = id
    · subst hk
      simp [updateOp, lookupOp, Ne.symm h]
    · by_cases hkb : k = idb
      · subst hkb
        simp [updateOp, lookupOp, hk]
      · simp [updateOp, lookupOp, hk, hkb, ih]

theorem updateOp_bound {ops : List (Nat × OpState)} {n : Nat}
    (h : ∀ p ∈ ops, p.1 < n) (id : Nat) (f : OpState → OpState) :
    ∀ p ∈ updateOp ops id f, p.1 < n := by
  induction ops with
  | nil => intro p hp; cases hp
  | cons q rest ih =>
    obtain ⟨k, v⟩ := q
    have hk0 : k < n := h (k, v) (List.mem_cons_self _ _)
    have hrest : ∀ p ∈ rest, p.1 < n := fun q hq => h q (List.mem_cons_of_mem _ hq)
    by_cases hk : k = id
    · simp only [updateOp, if_pos hk]
      intro p hp
      rcases List.mem_cons.mp hp with h1 | h1
      · subst h1; exact hk0
      · exact hrest p h1
    · simp only [updateOp, if_neg hk]
      intro p hp
      rcases List.mem_cons.mp hp with h1 | h1
      · subst h1; exact hk0
      · exact ih hrest p h1

theorem updateOp_comp (ops : List (Nat × OpState)) (id : Nat)
    (f g : OpState → OpState) :
    updateOp (updateOp ops id f) id g = updateOp ops id (fun o => g (f o)) := by
  induction ops with
  | nil => rfl
  | cons p rest ih =>
    obtain ⟨k, v⟩ := p
    by_cases hk : k = id <;> simp [updateOp, hk, ih]

theorem lookupOp_none_of_bound {ops : List (Nat × OpState)} {n : Nat}
    (h : ∀ p ∈ ops, p.1 < n) : lookupOp ops n = none := by
  induction ops with
  | nil => rfl
  | cons p rest ih =>
    obtain ⟨k, v⟩ := p
    have hk : k < n := h (k, v) (List.mem_cons_self _ _)
    simp only [lookupOp, if_neg (Nat.ne_of_lt hk)]
    exact ih fun q hq => h q (List.mem_cons_of_mem _ hq)

theorem lookupOp_lt {ops : List (Nat × OpState)} {n id : Nat} {op : OpState}
    (h : ∀ p ∈ ops, p.1 < n) (hl : lookupOp ops id = some op) : id < n := by
  induction ops with
  | nil => cases hl
  | cons p rest ih =>
    obtain ⟨k, v⟩ := p
    by_cases hk : k = id
    · subst hk; exact h (k, v) (List.mem_cons_self _ _)
    · simp only [lookupOp, if_neg hk] at hl
      exact ih (fun q hq => h q (List.mem_cons_of_mem _ hq)) hl

theorem runningOf_eq_true {ops : List (Nat × OpState)} {id : Nat} :
    runningOf ops id = true ↔
      ∃ op, lookupOp ops id = some op ∧
        op.phase ≠ DriverPhase.terminated ∧ op.cancelSignalled = false := by
  unfold runningOf
  cases hl : lookupOp ops id with
  | none => simp
  | some op => simp

theorem runningOf_some {ops : List (Nat × OpState)} {id : Nat} {op : OpState}
    (hl : lookupOp ops id = some op) :
    runningOf ops id =
      (!(decide (op.phase = DriverPhase.terminated)) && !op.cancelSignalled) := by
  unfold runningOf
  rw [hl]

theorem removedOf_some {ops : List (Nat × OpState)} {id : Nat} {op : OpState}
    (hl : lookupOp ops id = some op) :
    removedOf ops id =
      (decide (op.phase = DriverPhase.terminated) || op.cancelSignalled) := by
  unfold removedOf
  rw [hl]

theorem runningOf_updateOp_ne {ops : List (Nat × OpState)} {id idb : Nat}
    (f : OpState → OpState) (hb : idb ≠ id) :
    runningOf (updateOp ops id f) idb = runningOf ops idb := by
  unfold runningOf
  rw [lookupOp_updateOp_ne _ f hb]

theorem removedOf_updateOp_ne {ops : List (Nat × OpState)} {id idb : Nat}
    (f : OpState → OpState) (hb : idb ≠ id) :
    removedOf (updateOp ops id f) idb = removedOf ops idb := by
  unfold removedOf
  rw [lookupOp_updateOp_ne _ f hb]

/-- Updating the stored operation state of `id` in a way that changes neither
whether its phase is terminal nor its cancellation flag preserves the manager
invariant. -/
theorem sysInv_updateOp {s : Sys} {id : Nat} {f : OpState → OpState} {op : OpState}
    (hs : SysInv s) (hl : lookupOp s.ops id = some op)
    (hp : decide ((f op).phase = DriverPhase.terminated)
        = decide (op.phase = DriverPhase.terminated))
    (hc : (f op).cancelSignalled = op.cancelSignalled) :
    SysInv { s with ops := updateOp s.ops id f } := by
  obtain ⟨hrb, hob, hreg, hcount⟩ := hs
  have hl2 : lookupOp (updateOp s.ops id f) id = some (f op) := by
    rw [lookupOp_updateOp_self, hl]; rfl
  have hrun : ∀ idb, runningOf (updateOp s.ops id f) idb = runningOf s.ops idb := by
    intro idb
    by_cases hb : idb = id
    · subst hb
      rw [runningOf_some hl2, runningOf_some hl, hp, hc]
    · exact runningOf_updateOp_ne f hb
  have hrem : ∀ idb, removedOf (updateOp s.ops id f) idb = removedOf s.ops idb := by
    intro idb
    by_cases hb : idb = id
    · subst hb
      rw [removedOf_some hl2, removedOf_some hl, hp, hc]
    · exact removedOf_updateOp_ne f hb
  refine ⟨hrb, updateOp_bound hob id f, ?_, ?_⟩
  · intro idb
    rw [show ({ s with ops := updateOp s.ops id f } : Sys).ops = updateOp s.ops id f from rfl,
      hrun idb]
    exact hreg idb
  · intro idb
    rw [show ({ s with ops := updateOp s.ops id f } : Sys).ops = updateOp s.ops id f from rfl,
      hrem idb]
    exact hcount idb

/-- Removing the registry entry of `id` as part of a step that takes its
non-terminated driver to `Terminated` preserves the manager invariant, both
when the stop handler already removed the entry (the driver then observes
absence) and when the driver itself performs the effective removal. -/
theorem sysInv_removeFinish {s : Sys} {id : Nat} {f : OpState → OpState} {op : OpState}
    (hs : SysInv s) (hl : lookupOp s.ops id = some op)
    (hnt : op.phase ≠ DriverPhase.terminated)
    (hfp : (f op).phase = DriverPhase.terminated) :
    SysInv (applyAction { s with ops := updateOp s.ops id f } id .removeSelf) := by
  obtain ⟨hrb, hob, hreg, hcount⟩ := hs
  have hl2 : lookupOp (updateOp s.ops id f) id = some (f op) := by
    rw [lookupOp_updateOp_self, hl]; rfl
  cases hsig : op.cancelSignalled with
  | true =>
    have hnr : id ∉ s.registry := by
      intro hmem
      have h1 := (hreg id).mp hmem
      rw [runningOf_some hl, hsig] at h1
      simp at h1
    have hres : applyAction { s with ops := updateOp s.ops id f } id .removeSelf
        = { s with ops := updateOp s.ops id f } := by
      simp [applyAction, registryRemove, hnr]
    rw [hres]
    refine ⟨hrb, updateOp_bound hob id f, ?_, ?_⟩
    · intro idb
      dsimp only
      by_cases hb : idb = id
      · rw [hb, runningOf_some hl2, hfp]
        simp [hnr]
      · rw [runningOf_updateOp_ne f hb]
        exact hreg idb
    · intro idb
      dsimp only
      by_cases hb : idb = id
      · have h2 := hcount id
        rw [removedOf_some hl, hsig] at h2
        rw [hb, removedOf_some hl2, hfp]
        simpa using h2
      · rw [removedOf_updateOp_ne f hb]
        exact hcount idb
  | false =>
    have hmem : id ∈ s.registry := by
      refine (hreg id).mpr ?_
      rw [runningOf_some hl, hsig]
      simp [hnt]
    have hres : applyAction { s with ops := updateOp s.ops id f } id .removeSelf
        = { s with ops := updateOp s.ops id f,
                   registry := s.registry.filter (fun x => x ≠ id),
                   removals := id :: s.removals } := by
      simp [applyAction, registryRemove, hmem]
    rw [hres]
    refine ⟨?_, updateOp_bound hob id f, ?_, ?_⟩
    · intro idb hidb
      exact hrb idb (List.mem_filter.mp hidb).1
    · intro idb
      dsimp only
      by_cases hb : idb = id
      · rw [hb, runningOf_some hl2, hfp]
        simp [List.mem_filter]
      · rw [runningOf_updateOp_ne f hb]
        have h3 : (idb ∈ s.registry.filter (fun x => x ≠ id)) ↔ idb ∈ s.registry := by
          simp [List.mem_filter, hb]
        rw [h3]
        exact hreg idb
    · intro idb
      dsimp only
      by_cases hb : idb = id
      · have h2 := hcount id
        rw [removedOf_some hl, hsig] at h2
        simp only [Bool.or_false] at h2
        have h5 : s.removals.count id = 0 := by
          rw [h2]
          simp [hnt]
        rw [hb, removedOf_some hl2, hfp]
        simp [h5]
      · rw [removedOf_updateOp_ne f hb]
        have h4 : (id :: s.removals).count idb = s.removals.count idb := by
          simp [List.count_cons, hb]
        rw [h4]
        exact hcount idb

/-- A successful broadcast request preserves the manager invariant. -/
theorem sysInv_broadcast {s : Sys} (hs : SysInv s) (d : Bool) {id : Nat} {s1 : Sys}
    (hb : sysBroadcast s true d = .ok (id, s1)) : SysInv s1 := by
  obtain ⟨hrb, hob, hreg, hcount⟩ := hs
  have hb1 : id = s.nextId ∧ s1 = Sys.mk (s.nextId + 1) (s.nextId :: s.registry)
      ((s.nextId, initOp d) :: s.ops) s.removals := by
    simp only [sysBroadcast, if_pos trivial] at hb
    cases hb
    exact ⟨rfl, rfl⟩
  obtain ⟨hid, hs1⟩ := hb1
  subst hs1
  have hlook : lookupOp ((s.nextId, initOp d) :: s.ops) s.nextId = some (initOp d) := by
    simp [lookupOp]
  refine ⟨?_, ?_, ?_, ?_⟩
  · intro idb hidb
    rcases List.mem_cons.mp hidb with h1 | h1
    · subst h1; exact Nat.lt_succ_self _
    · exact Nat.lt_succ_of_lt (hrb idb h1)
  · intro p hp
    rcases List.mem_cons.mp hp with h1 | h1
    · subst h1; exact Nat.lt_succ_self _
    · exact Nat.lt_succ_of_lt (hob p h1)
  · intro idb
    dsimp only
    by_cases hbb : idb = s.nextId
    · rw [hbb, runningOf_some hlook]
      cases d <;> simp [initOp]
    · have hlb : lookupOp ((s.nextId, initOp d) :: s.ops) idb = lookupOp s.ops idb := by
        simp [lookupOp, Ne.symm hbb]
      have hrun : runningOf ((s.nextId, initOp d) :: s.ops) idb = runningOf s.ops idb := by
        unfold runningOf
        rw [hlb]
      rw [hrun]
      constructor
      · intro hmem
        rcases List.mem_cons.mp hmem with h1 | h1
        · exact absurd h1 hbb
        · exact (hreg idb).mp h1
      · intro hr
        exact List.mem_cons_of_mem _ ((hreg idb).mpr hr)
  · intro idb
    dsimp only
    by_cases hbb : idb = s.nextId
    · have hnone : lookupOp s.ops s.nextId = none := lookupOp_none_of_bound hob
      have h2 := hcount s.nextId
      rw [show removedOf s.ops s.nextId = false by unfold removedOf; rw [hnone]] at h2
      simp only [Bool.false_eq_true, if_neg] at h2
      rw [hbb, removedOf_some hlook]
      cases d <;> simpa [initOp] using h2
    · have hlb : lookupOp ((s.nextId, initOp d) :: s.ops) idb = lookupOp s.ops idb := by
        simp [lookupOp, Ne.symm hbb]
      have hrem : removedOf ((s.nextId, initOp d) :: s.ops) idb = removedOf s.ops idb := by
        unfold removedOf
        rw [hlb]
      rw [hrem]
      exact hcount idb

/-- A successful stop request preserves the manager invariant. -/
theorem sysInv_stop {s : Sys} (hs : SysInv s) {id : Nat} {s1 : Sys}
    (hst : sysStop s id = .ok s1) : SysInv s1 := by
  obtain ⟨hrb, hob, hreg, hcount⟩ := hs
  by_cases hmem : id ∈ s.registry
  · have hs1 : s1 = { s with
        registry := s.registry.filter (fun x => x ≠ id)
        removals := id :: s.removals
        ops := updateOp s.ops id (fun op => { op with cancelSignalled := true }) } := by
      simp only [sysStop, registryRemove] at hst
      rw [if_pos (by simpa using hmem)] at hst
      cases hst
      rfl
    obtain ⟨op, hl, hphase, hsig⟩ := runningOf_eq_true.mp ((hreg id).mp hmem)
    have hl2 : lookupOp (updateOp s.ops id
        (fun op => { op with cancelSignalled := true })) id
        = some { op with cancelSignalled := true } := by
      rw [lookupOp_updateOp_self, hl]; rfl
    subst hs1
    refine ⟨?_, updateOp_bound hob id _, ?_, ?_⟩
    · intro idb hidb
      exact hrb idb (List.mem_filter.mp hidb).1
    · intro idb
      dsimp only
      by_cases hb : idb = id
      · rw [hb, runningOf_some hl2]
        simp [List.mem_filter]
      · rw [runningOf_updateOp_ne _ hb]
        have h3 : (idb ∈ s.registry.filter (fun x => x ≠ id)) ↔ idb ∈ s.registry := by
          simp [List.mem_filter, hb]
        rw [h3]
        exact hreg idb
    · intro idb
      dsimp only
      by_cases hb : idb = id
      · have h2 := hcount id
        rw [removedOf_some hl, hsig] at h2
        simp only [Bool.or_false] at h2
        have h5 : s.removals.count id = 0 := by
          rw [h2]
          simp [hphase]
        rw [hb, removedOf_some hl2]
        simp [h5]
      · rw [removedOf_updateOp_ne _ hb]
        have h4 : (id :: s.removals).count idb = s.removals.count idb := by
          simp [List.count_cons, hb]
        rw [h4]
        exact hcount idb
  · exfalso
    simp only [sysStop, registryRemove] at hst
    rw [if_neg (by simpa using hmem)] at hst
    cases hst

theorem applyAction_submit (s : Sys) (id b : Nat) :
    applyAction s id (.submit b)
      = { s with ops := updateOp s.ops id (fun op => { op with submits := op.submits ++ [b] }) } := rfl

theorem applyAction_record (s : Sys) (id : Nat) (st : TransactionStatus) :
    applyAction s id (.record st)
      = { s with ops := updateOp s.ops id (fun op => { op with lastStatus := some st }) } := rfl

theorem applyAction_untrack (s : Sys) (id : Nat) :
    applyAction s id .untrack
      = { s with ops := updateOp s.ops id (fun op => { op with untracks := op.untracks + 1 }) } := rfl

/-- Any scheduler step of any driver task preserves the manager invariant. -/
theorem sysInv_deliver {s : Sys} (hs : SysInv s) (id : Nat) (e : DriverEvent) :
    SysInv (sysDeliver s id e) := by
  cases hl : lookupOp s.ops id with
  | none => simpa [sysDeliver, hl] using hs
  | some op =>
    by_cases hg : e = DriverEvent.cancelled ∧ op.cancelSignalled = false
    · simpa [sysDeliver, hl, hg] using hs
    · have hd : sysDeliver s id e = applyActions
          { s with ops := updateOp s.ops id (fun o => { o with phase := (driverStep op.phase e).1 }) }
          id (driverStep op.phase e).2 := by
        simp [sysDeliver, hl, hg]
      rw [hd]
      cases hph : op.phase with
      | decodeFailedPending =>
        have hstep : driverStep DriverPhase.decodeFailedPending e
            = (.terminated, [.removeSelf]) := by cases e <;> rfl
        rw [hstep]
        simp only [applyActions, List.foldl]
        exact sysInv_removeFinish hs hl (by simp [hph]) rfl
      | awaitingFirstBlock =>
        cases e with
        | blockNote b =>
          have hstep : driverStep DriverPhase.awaitingFirstBlock (DriverEvent.blockNote b)
              = (.tracking true, [.submit b]) := rfl
          rw [hstep]
          simp only [applyActions, List.foldl]
          rw [applyAction_submit]
          dsimp only
          rw [updateOp_comp]
          exact sysInv_updateOp hs hl (by simp [hph]) rfl
        | statusUpdate st =>
          have hstep : driverStep DriverPhase.awaitingFirstBlock (DriverEvent.statusUpdate st)
              = (.awaitingFirstBlock, []) := rfl
          rw [hstep]
          simp only [applyActions, List.foldl]
          exact sysInv_updateOp hs hl (by simp [hph]) rfl
        | streamClosed =>
          have hstep : driverStep DriverPhase.awaitingFirstBlock DriverEvent.streamClosed
              = (.awaitingFirstBlock, []) := rfl
          rw [hstep]
          simp only [applyActions, List.foldl]
          exact sysInv_updateOp hs hl (by simp [hph]) rfl
        | blockSourceClosed =>
          have hstep : driverStep DriverPhase.awaitingFirstBlock DriverEvent.blockSourceClosed
              = (.terminated, [.removeSelf]) := rfl
          rw [hstep]
          simp only [applyActions, List.foldl]
          exact sysInv_removeFinish hs hl (by simp [hph]) rfl
        | cancelled =>
          have hstep : driverStep DriverPhase.awaitingFirstBlock DriverEvent.cancelled
              = (.terminated, [.removeSelf]) := rfl
          rw [hstep]
          simp only [applyActions, List.foldl]
          exact sysInv_removeFinish hs hl (by simp [hph]) rfl
      | tracking so =>
        cases e with
        | blockNote b =>
          cases so with
          | true =>
            have hstep : driverStep (DriverPhase.tracking true) (DriverEvent.blockNote b)
                = (.tracking true, []) := rfl
            rw [hstep]
            simp only [applyActions, List.foldl]
            exact sysInv_updateOp hs hl (by simp [hph]) rfl
          | false =>
            have hstep : driverStep (DriverPhase.tracking false) (DriverEvent.blockNote b)
                = (.tracking true, [.submit b]) := rfl
            rw [hstep]
            simp only [applyActions, List.foldl]
            rw [applyAction_submit]
            dsimp only
            rw [updateOp_comp]
            exact sysInv_updateOp hs hl (by simp [hph]) rfl
        | statusUpdate st =>
          cases ht : st.isTerminal with
          | true =>
            have hstep : driverStep (DriverPhase.tracking so) (DriverEvent.statusUpdate st)
                = (.terminated, [.removeSelf]) := by
              simp [driverStep, ht]
            rw [hstep]
            simp only [applyActions, List.foldl]
            exact sysInv_removeFinish hs hl (by simp [hph]) rfl
          | false =>
            have hstep : driverStep (DriverPhase.tracking so) (DriverEvent.statusUpdate st)
                = (.tracking so, [.record st]) := by
              simp [driverStep, ht]
            rw [hstep]
            simp only [applyActions, List.foldl]
            rw [applyAction_record]
            dsimp only
            rw [updateOp_comp]
            exact sysInv_updateOp hs hl (by simp [hph]) rfl
        | streamClosed =>
          have hstep : driverStep (DriverPhase.tracking so) DriverEvent.streamClosed
              = (.tracking false, []) := by cases so <;> rfl
          rw [hstep]
          simp only [applyActions, List.foldl]
          exact sysInv_updateOp hs hl (by simp [hph]) rfl
        | blockSourceClosed =>
          have hstep : driverStep (DriverPhase.tracking so) DriverEvent.blockSourceClosed
              = (.terminated, [.removeSelf]) := by cases so <;> rfl
          rw [hstep]
          simp only [applyActions, List.foldl]
          exact sysInv_removeFinish hs hl (by simp [hph]) rfl
        | cancelled =>
          have hstep : driverStep (DriverPhase.tracking so) DriverEvent.cancelled
              = (.terminated, [.untrack, .removeSelf]) := by cases so <;> rfl
          rw [hstep]
          simp only [applyActions, List.foldl]
          rw [applyAction_untrack]
          dsimp only
          rw [updateOp_comp]
          exact sysInv_removeFinish hs hl (by simp [hph]) rfl
      | terminated =>
        have hstep : driverStep DriverPhase.terminated e = (.terminated, []) := by
          cases e <;> rfl
        rw [hstep]
        simp only [applyActions, List.foldl]
        exact sysInv_updateOp hs hl (by simp [hph]) rfl

/-- The manager invariant holds in the initial state. -/
theorem sysInv_init : SysInv sysInit := by
  refine ⟨?_, ?_, ?_, ?_⟩
  · intro id h; cases h
  · intro p h; cases h
  · intro id; simp [sysInit, runningOf, lookupOp]
  · intro id; simp [sysInit, removedOf, lookupOp]

/-- Every interleaving step of the system preserves the manager invariant. -/
theorem sysInv_step {s : Sys} (hs : SysInv s) (ev : SysEvent) : SysInv (sysStep s ev) := by
  cases ev with
  | broadcastReq wf dec =>
    cases wf with
    | false => exact hs
    | true =>
      exact sysInv_broadcast hs dec
        (rfl : sysBroadcast s true dec = Except.ok (s.nextId, Sys.mk (s.nextId + 1)
          (s.nextId :: s.registry) ((s.nextId, initOp dec) :: s.ops) s.removals))
  | stopReq id =>
    cases hst : sysStop s id with
    | ok s1 =>
      have h1 : sysStep s (SysEvent.stopReq id) = s1 := by
        simp [sysStep, hst]
      rw [h1]
      exact sysInv_stop hs hst
    | error e1 =>
      have h1 : sysStep s (SysEvent.stopReq id) = s := by
        simp [sysStep, hst]
      rw [h1]
      exact hs
  | drv id e => exact sysInv_deliver hs id e

/-- The manager invariant holds along every run. -/
theorem sysInv_run {s : Sys} (hs : SysInv s) (evs : List SysEvent) : SysInv (sysRun s evs) := by
  induction evs generalizing s with
  | nil => exact hs
  | cons ev rest ih => exact ih (sysInv_step hs ev)

/-- Every state reachable from the initial state satisfies the invariant. -/
theorem sysInv_reachable (evs : List SysEvent) : SysInv (sysRun sysInit evs) :=
  sysInv_run sysInv_init evs

theorem applyAction_removeSelf_ops (s : Sys) (id : Nat) :
    (applyAction s id .removeSelf).ops = s.ops := by
  unfold applyAction
  dsimp only
  split <;> rfl

theorem applyActions_lookup_ne (acts : List DriverAction) {idb : Nat} (s : Sys)
    {id : Nat} (h : id ≠ idb) :
    lookupOp (applyActions s idb acts).ops id = lookupOp s.ops id := by
  induction acts generalizing s with
  | nil => rfl
  | cons a rest ih =>
    have h1 : applyActions s idb (a :: rest) = applyActions (applyAction s idb a) idb rest := rfl
    rw [h1, ih]
    cases a with
    | submit b => exact lookupOp_updateOp_ne _ _ h
    | record st => exact lookupOp_updateOp_ne _ _ h
    | untrack => exact lookupOp_updateOp_ne _ _ h
    | removeSelf => rw [applyAction_removeSelf_ops]

/-- Applying driver actions never changes the phase or the cancellation flag
stored for the operation. -/
theorem applyActions_lookup_self (acts : List DriverAction) (s : Sys) (idb : Nat)
    {op : OpState} (hl : lookupOp s.ops idb = some op) :
    ∃ op2, lookupOp (applyActions s idb acts).ops idb = some op2 ∧
      op2.phase = op.phase ∧ op2.cancelSignalled = op.cancelSignalled := by
  induction acts generalizing s op with
  | nil => exact ⟨op, hl, rfl, rfl⟩
  | cons a rest ih =>
    have h1 : applyActions s idb (a :: rest) = applyActions (applyAction s idb a) idb rest := rfl
    rw [h1]
    cases a with
    | submit b =>
      have h2 : lookupOp (applyAction s idb (.submit b)).ops idb
          = some { op with submits := op.submits ++ [b] } := by
        rw [applyAction_submit]
        dsimp only
        rw [lookupOp_updateOp_self, hl]
        rfl
      obtain ⟨op2, h3, h4, h5⟩ := ih _ h2
      exact ⟨op2, h3, h4, h5⟩
    | record st =>
      have h2 : lookupOp (applyAction s idb (.record st)).ops idb
          = some { op with lastStatus := some st } := by
        rw [applyAction_record]
        dsimp only
        rw [lookupOp_updateOp_self, hl]
        rfl
      obtain ⟨op2, h3, h4, h5⟩ := ih _ h2
      exact ⟨op2, h3, h4, h5⟩
    | untrack =>
      have h2 : lookupOp (applyAction s idb .untrack).ops idb
          = some { op with untracks := op.untracks + 1 } := by
        rw [applyAction_untrack]
        dsimp only
        rw [lookupOp_updateOp_self, hl]
        rfl
      obtain ⟨op2, h3, h4, h5⟩ := ih _ h2
      exact ⟨op2, h3, h4, h5⟩
    | removeSelf =>
      have h2 : lookupOp (applyAction s idb .removeSelf).ops idb = some op := by
        rw [applyAction_removeSelf_ops]
        exact hl
      obtain ⟨op2, h3, h4, h5⟩ := ih _ h2
      exact ⟨op2, h3, h4, h5⟩

/-- An id whose driver table entry is terminated is absent from the registry. -/
theorem not_mem_registry_of_terminated {s : Sys} (hs : SysInv s) {id : Nat} {op : OpState}
    (hl : lookupOp s.ops id = some op) (ht : op.phase = DriverPhase.terminated) :
    id ∉ s.registry := by
  intro hmem
  have h1 := (hs.2.2.1 id).mp hmem
  rw [runningOf_some hl, ht] at h1
  simp at h1

/-- Stopping an id that is not in the registry fails with InvalidOperationId. -/
theorem sysStop_not_mem {s : Sys} {id : Nat} (h : id ∉ s.registry) :
    sysStop s id = Except.error RpcError.invalidOperationId := by
  simp [sysStop, registryRemove, h]

/-- Stopping an id that is in the registry removes the entry, records the
effective removal and signals cancellation to the driver. -/
theorem sysStop_mem {s : Sys} {id : Nat} (h : id ∈ s.registry) :
    sysStop s id = Except.ok { s with
      registry := s.registry.filter (fun x => x ≠ id)
      removals := id :: s.removals
      ops := updateOp s.ops id (fun op => { op with cancelSignalled := true }) } := by
  simp [sysStop, registryRemove, h]

theorem removedOf_eq_true {ops : List (Nat × OpState)} {id : Nat} :
    removedOf ops id = true ↔ ∃ op, lookupOp ops id = some op ∧
      (op.phase = DriverPhase.terminated ∨ op.cancelSignalled = true) := by
  unfold removedOf
  cases hl : lookupOp ops id with
  | none => simp
  | some op => simp

/-- A terminated driver table entry is never modified again by any step. -/
theorem terminated_frame_step {s : Sys} (hs : SysInv s) {id : Nat} {op : OpState}
    (hl : lookupOp s.ops id = some op) (ht : op.phase = DriverPhase.terminated)
    (ev : SysEvent) : lookupOp (sysStep s ev).ops id = some op := by
  cases ev with
  | broadcastReq wf dec =>
    cases wf with
    | false => exact hl
    | true =>
      have hlt : id < s.nextId := lookupOp_lt hs.2.1 hl
      have h1 : sysStep s (SysEvent.broadcastReq true dec)
          = Sys.mk (s.nextId + 1) (s.nextId :: s.registry)
              ((s.nextId, initOp dec) :: s.ops) s.removals := rfl
      rw [h1]
      dsimp only
      rw [show lookupOp ((s.nextId, initOp dec) :: s.ops) id = lookupOp s.ops id by
        simp [lookupOp, Nat.ne_of_gt hlt]]
      exact hl
  | stopReq idb =>
    by_cases hmem : idb ∈ s.registry
    · have h1 : sysStep s (SysEvent.stopReq idb) = { s with
          registry := s.registry.filter (fun x => x ≠ idb)
          removals := idb :: s.removals
          ops := updateOp s.ops idb (fun op => { op with cancelSignalled := true }) } := by
        simp [sysStep, sysStop_mem hmem]
      rw [h1]
      dsimp only
      by_cases hb : id = idb
      · exfalso
        exact not_mem_registry_of_terminated hs hl ht (hb ▸ hmem)
      · rw [lookupOp_updateOp_ne _ _ hb]
        exact hl
    · have h1 : sysStep s (SysEvent.stopReq idb) = s := by
        simp [sysStep, sysStop_not_mem hmem]
      rw [h1]
      exact hl
  | drv idb e =>
    show lookupOp (sysDeliver s idb e).ops id = some op
    cases hlb : lookupOp s.ops idb with
    | none =>
      rw [show sysDeliver s idb e = s by simp [sysDeliver, hlb]]
      exact hl
    | some opb =>
      by_cases hg : e = DriverEvent.cancelled ∧ opb.cancelSignalled = false
      · rw [show sysDeliver s idb e = s by simp [sysDeliver, hlb, hg]]
        exact hl
      · have hd : sysDeliver s idb e = applyActions
            { s with ops := updateOp s.ops idb (fun o => { o with phase := (driverStep opb.phase e).1 }) }
            idb (driverStep opb.phase e).2 := by
          simp [sysDeliver, hlb, hg]
        rw [hd]
        by_cases hb : id = idb
        · have h2 : opb = op := by
            apply Option.some.inj
            rw [← hlb, ← hl, hb]
          subst h2
          have hstep : driverStep opb.phase e = (DriverPhase.terminated, []) := by
            rw [ht]; cases e <;> rfl
          rw [hstep, ← hb]
          show lookupOp (updateOp s.ops id (fun o => { o with phase := DriverPhase.terminated })) id
            = some opb
          rw [lookupOp_updateOp_self, hl]
          show some { opb with phase := DriverPhase.terminated } = some opb
          rw [← ht]
        · rw [applyActions_lookup_ne _ _ hb]
          dsimp only
          rw [lookupOp_updateOp_ne _ _ hb]
          exact hl

/-- A terminated driver table entry survives every further run unchanged. -/
theorem terminated_frame_run {s : Sys} (hs : SysInv s) {id : Nat} {op : OpState}
    (hl : lookupOp s.ops id = some op) (ht : op.phase = DriverPhase.terminated)
    (evs : List SysEvent) : lookupOp (sysRun s evs).ops id = some op := by
  induction evs generalizing s with
  | nil => exact hl
  | cons ev rest ih =>
    exact ih (sysInv_step hs ev) (terminated_frame_step hs hl ht ev)

/-- Once the registry entry of an id has been relinquished (its driver
terminated or was signalled cancellation), it stays relinquished. -/
theorem removed_persists_step {s : Sys} (hs : SysInv s) {id : Nat}
    (hr : removedOf s.ops id = true) (ev : SysEvent) :
    removedOf (sysStep s ev).ops id = true := by
  obtain ⟨op, hl, hcond⟩ := removedOf_eq_true.mp hr
  cases ev with
  | broadcastReq wf dec =>
    cases wf with
    | false => exact hr
    | true =>
      have hlt : id < s.nextId := lookupOp_lt hs.2.1 hl
      have h1 : sysStep s (SysEvent.broadcastReq true dec)
          = Sys.mk (s.nextId + 1) (s.nextId :: s.registry)
              ((s.nextId, initOp dec) :: s.ops) s.removals := rfl
      rw [h1]
      dsimp only
      rw [show removedOf ((s.nextId, initOp dec) :: s.ops) id = removedOf s.ops id by
        unfold removedOf
        rw [show lookupOp ((s.nextId, initOp dec) :: s.ops) id = lookupOp s.ops id by
          simp [lookupOp, Nat.ne_of_gt hlt]]]
      exact hr
  | stopReq idb =>
    by_cases hmem : idb ∈ s.registry
    · have h1 : sysStep s (SysEvent.stopReq idb) = { s with
          registry := s.registry.filter (fun x => x ≠ idb)
          removals := idb :: s.removals
          ops := updateOp s.ops idb (fun op => { op with cancelSignalled := true }) } := by
        simp [sysStep, sysStop_mem hmem]
      rw [h1]
      dsimp only
      by_cases hb : id = idb
      · have hl2 : lookupOp (updateOp s.ops idb
            (fun op => { op with cancelSignalled := true })) id
            = some { op with cancelSignalled := true } := by
          rw [hb, lookupOp_updateOp_self, ← hb, hl]
          rfl
        rw [removedOf_some hl2]
        simp
      · rw [removedOf_updateOp_ne _ hb]
        exact hr
    · have h1 : sysStep s (SysEvent.stopReq idb) = s := by
        simp [sysStep, sysStop_not_mem hmem]
      rw [h1]
      exact hr
  | drv idb e =>
    show removedOf (sysDeliver s idb e).ops id = true
    cases hlb : lookupOp s.ops idb with
    | none =>
      rw [show sysDeliver s idb e = s by simp [sysDeliver, hlb]]
      exact hr
    | some opb =>
      by_cases hg : e = DriverEvent.cancelled ∧ opb.cancelSignalled = false
      · rw [show sysDeliver s idb e = s by simp [sysDeliver, hlb, hg]]
        exact hr
      · have hd : sysDeliver s idb e = applyActions
            { s with ops := updateOp s.ops idb (fun o => { o with phase := (driverStep opb.phase e).1 }) }
            idb (driverStep opb.phase e).2 := by
          simp [sysDeliver, hlb, hg]
        rw [hd]
        by_cases hb : id = idb
        · have h2 : opb = op := by
            apply Option.some.inj
            rw [← hlb, ← hl, hb]
          subst h2
          rw [← hb]
          have hl2 : lookupOp ({ s with ops := updateOp s.ops id (fun o => { o with phase := (driverStep opb.phase e).1 }) } : Sys).ops id
              = some { opb with phase := (driverStep opb.phase e).1 } := by
            show lookupOp (updateOp s.ops id (fun o => { o with phase := (driverStep opb.phase e).1 })) id = _
            rw [lookupOp_updateOp_self, hl]
            rfl
          obtain ⟨op2, h3, h4, h5⟩ := applyActions_lookup_self _ _ _ hl2
          refine removedOf_eq_true.mpr ⟨op2, h3, ?_⟩
          rcases hcond with hc | hc
          · left
            rw [h4]
            dsimp only
            rw [show driverStep opb.phase e = (DriverPhase.terminated, []) by
              rw [hc]; cases e <;> rfl]
          · right
            rw [h5, hc]
        · refine removedOf_eq_true.mpr ⟨op, ?_, hcond⟩
          rw [applyActions_lookup_ne _ _ hb]
          dsimp only
          rw [lookupOp_updateOp_ne _ _ hb]
          exact hl

/-- The relinquished flag persists along every further run. -/
theorem removed_persists_run {s : Sys} (hs : SysInv s) {id : Nat}
    (hr : removedOf s.ops id = true) (evs : List SysEvent) :
    removedOf (sysRun s evs).ops id = true := by
  induction evs generalizing s with
  | nil => exact hr
  | cons ev rest ih =>
    exact ih (sysInv_step hs ev) (removed_persists_step hs hr ev)

/-- A driver started before its first best-block event emits no pool
submission while no best-block event is observed. -/
theorem driverRun_no_submit (evs : List DriverEvent)
    (hnb : ∀ e ∈ evs, e.isBlockNote = false) :
    ∀ ph, (ph = DriverPhase.awaitingFirstBlock ∨ ph = DriverPhase.terminated) →
      ((driverRun ph evs).2.all (fun a => !a.isSubmit) = true ∧
        ((driverRun ph evs).1 = DriverPhase.awaitingFirstBlock ∨
          (driverRun ph evs).1 = DriverPhase.terminated)) := by
  induction evs with
  | nil =>
    intro ph hph
    exact ⟨rfl, hph⟩
  | cons e rest ih =>
    intro ph hph
    have hrest : ∀ x ∈ rest, x.isBlockNote = false :=
      fun x hx => hnb x (List.mem_cons_of_mem _ hx)
    have hrun : driverRun ph (e :: rest)
        = ((driverRun (driverStep ph e).1 rest).1,
           (driverStep ph e).2 ++ (driverRun (driverStep ph e).1 rest).2) := rfl
    have hstepOk : ((driverStep ph e).2.all (fun a => !a.isSubmit) = true) ∧
        ((driverStep ph e).1 = DriverPhase.awaitingFirstBlock ∨
          (driverStep ph e).1 = DriverPhase.terminated) := by
      have hne : e.isBlockNote = false := hnb e (List.mem_cons_self _ _)
      rcases hph with h1 | h1 <;> rw [h1] <;> cases e <;> simp_all [DriverEvent.isBlockNote,
        driverStep, DriverAction.isSubmit]
    obtain ⟨hok, hnext⟩ := hstepOk
    obtain ⟨hall, hph2⟩ := ih hrest _ hnext
    rw [hrun]
    refine ⟨?_, hph2⟩
    rw [List.all_append, hok, hall]
    rfl

/-- Successful broadcast returns the fresh id and the successor state. -/
theorem sysBroadcast_ok (s : Sys) (d : Bool) :
    sysBroadcast s true d = Except.ok (s.nextId, Sys.mk (s.nextId + 1)
      (s.nextId :: s.registry) ((s.nextId, initOp d) :: s.ops) s.removals) := rfl

/-- A deliverable event makes the driver step and its actions apply. -/
theorem sysDeliver_eq {s : Sys} {id : Nat} {op : OpState} {e : DriverEvent}
    (hl : lookupOp s.ops id = some op)
    (hg : ¬(e = DriverEvent.cancelled ∧ op.cancelSignalled = false)) :
    sysDeliver s id e = applyActions
      { s with ops := updateOp s.ops id (fun o => { o with phase := (driverStep op.phase e).1 }) }
      id (driverStep op.phase e).2 := by
  simp [sysDeliver, hl, hg]

/-- C4: a broadcast request with malformed top-level protocol arguments fails
with InvalidParams (message "Invalid params", the invalid-params JSON-RPC
code), before any OperationId is allocated and before decoding: the state is
completely unchanged (no Registry entry, no driver, no pool interaction) and
the outcome does not depend on whether the blob would have decoded. -/
theorem claim4_invalid_params_pre_alloc (s : Sys) (d : Bool) :
    sysBroadcast s false d = Except.error RpcError.invalidParams ∧
    RpcError.invalidParams.message = "Invalid params" ∧
    RpcError.invalidParams.code = INVALID_PARAM_ERROR ∧
    sysStep s (SysEvent.broadcastReq false d) = s ∧
    sysBroadcast s false true = sysBroadcast s false false :=
  ⟨rfl, rfl, rfl, rfl, rfl⟩

/-- C4 witness: the property evaluated at the initial state. -/
theorem claim4_witness :
    sysBroadcast sysInit false true = Except.error RpcError.invalidParams ∧
    sysStep sysInit (SysEvent.broadcastReq false true) = sysInit :=
  ⟨(claim4_invalid_params_pre_alloc sysInit true).1,
    (claim4_invalid_params_pre_alloc sysInit true).2.2.2.1⟩

/-- C5: a driver never submits to the pool before its first best-block event:
over any event sequence containing no best-block event it emits no submit
action, and on the first best-block event it submits against exactly that
block, obtains a status stream and moves to Tracking. -/
theorem claim5_submit_only_after_first_block :
    (∀ b, driverStep DriverPhase.awaitingFirstBlock (DriverEvent.blockNote b)
        = (DriverPhase.tracking true, [DriverAction.submit b])) ∧
    (∀ evs : List DriverEvent, (∀ e ∈ evs, e.isBlockNote = false) →
      (driverRun DriverPhase.awaitingFirstBlock evs).2.all (fun a => !a.isSubmit) = true) :=
  ⟨fun _ => rfl,
   fun evs h => (driverRun_no_submit evs h DriverPhase.awaitingFirstBlock (Or.inl rfl)).1⟩

/-- C5 witness: a blockless event sequence produces no submission. -/
theorem claim5_witness :
    (∀ e ∈ [DriverEvent.statusUpdate TransactionStatus.ready, DriverEvent.streamClosed,
        DriverEvent.cancelled], DriverEvent.isBlockNote e = false) ∧
    (driverRun DriverPhase.awaitingFirstBlock [DriverEvent.statusUpdate TransactionStatus.ready,
        DriverEvent.streamClosed, DriverEvent.cancelled]).2.all (fun a => !a.isSubmit) = true :=
  ⟨by decide, claim5_submit_only_after_first_block.2 _ (by decide)⟩

/-- C6: while the status stream is open, a best-block event is a no-op for a
tracking driver; a submit action on a best-block event happens exactly when
tracking was lost (stream closed without terminal event); a non-terminal
status update is merely recorded, so Future-to-Ready movement comes from the
pool, not from the driver. -/
theorem claim6_block_note_noop_when_tracking :
    (∀ b, driverStep (DriverPhase.tracking true) (DriverEvent.blockNote b)
        = (DriverPhase.tracking true, [])) ∧
    (∀ so b, DriverAction.submit b ∈
        (driverStep (DriverPhase.tracking so) (DriverEvent.blockNote b)).2 ↔ so = false) ∧
    (∀ so st, st.isTerminal = false →
      driverStep (DriverPhase.tracking so) (DriverEvent.statusUpdate st)
        = (DriverPhase.tracking so, [DriverAction.record st])) := by
  refine ⟨fun _ => rfl, ?_, ?_⟩
  · intro so b
    cases so <;> simp [driverStep]
  · intro so st h
    simp [driverStep, h]

/-- C6 witness: a Ready update while tracking with an open stream is recorded
and causes no resubmission. -/
theorem claim6_witness :
    TransactionStatus.ready.isTerminal = false ∧
    driverStep (DriverPhase.tracking true) (DriverEvent.statusUpdate TransactionStatus.ready)
      = (DriverPhase.tracking true, [DriverAction.record TransactionStatus.ready]) :=
  ⟨by decide, claim6_block_note_noop_when_tracking.2.2 true TransactionStatus.ready (by decide)⟩

/-- C10: the InvalidParams error of broadcast and the InvalidOperationId
error of stop carry the same numeric JSON-RPC code (the invalid-params code)
and differ only in their message strings. -/
theorem claim10_shared_error_code :
    RpcError.invalidParams.code = RpcError.invalidOperationId.code ∧
    RpcError.invalidParams.code = INVALID_PARAM_ERROR ∧
    RpcError.invalidParams.message = "Invalid params" ∧
    RpcError.invalidOperationId.message = "Invalid operation id" ∧
    RpcError.invalidParams.message ≠ RpcError.invalidOperationId.message := by
  refine ⟨rfl, rfl, rfl, rfl, ?_⟩
  decide

/-- C1: broadcasting a well-formed request whose transaction blob fails to
decode still returns a fresh OperationId (registered at first), the driver
terminates on its very first scheduled step having performed no pool
interaction whatsoever (no submission, no untrack; its record stays frozen
with an empty submission list through every later run), and once it has
self-terminated every subsequent stop on that id fails with
InvalidOperationId ("Invalid operation id"). -/
theorem claim1_silent_decode_failure (evs : List SysEvent) (e : DriverEvent)
    (he : e ≠ DriverEvent.cancelled) (evs2 : List SysEvent) :
    ∃ id s1, sysBroadcast (sysRun sysInit evs) true false = Except.ok (id, s1) ∧
      id ∈ s1.registry ∧
      lookupOp (sysRun (sysDeliver s1 id e) evs2).ops id
        = some (OpState.mk DriverPhase.terminated false [] none 0) ∧
      id ∉ (sysRun (sysDeliver s1 id e) evs2).registry ∧
      sysStop (sysRun (sysDeliver s1 id e) evs2) id = Except.error RpcError.invalidOperationId ∧
      RpcError.invalidOperationId.message = "Invalid operation id" := by
  set s := sysRun sysInit evs with hsdef
  have hs : SysInv s := sysInv_reachable evs
  set s1 := Sys.mk (s.nextId + 1) (s.nextId :: s.registry)
    ((s.nextId, initOp false) :: s.ops) s.removals with hs1def
  have hb : sysBroadcast s true false = Except.ok (s.nextId, s1) := sysBroadcast_ok s false
  have hs1 : SysInv s1 := sysInv_broadcast hs false hb
  have hl1 : lookupOp s1.ops s.nextId = some (initOp false) := by
    show lookupOp ((s.nextId, initOp false) :: s.ops) s.nextId = some (initOp false)
    simp [lookupOp]
  have hg : ¬(e = DriverEvent.cancelled ∧ (initOp false).cancelSignalled = false) :=
    fun hc => he hc.1
  have hstep : driverStep (initOp false).phase e
      = (DriverPhase.terminated, [DriverAction.removeSelf]) := by
    cases e <;> rfl
  have hd := sysDeliver_eq hl1 hg
  rw [hstep] at hd
  dsimp only at hd
  have hl2 : lookupOp (sysDeliver s1 s.nextId e).ops s.nextId
      = some (OpState.mk DriverPhase.terminated false [] none 0) := by
    rw [hd]
    show lookupOp (applyAction
      { s1 with ops := updateOp s1.ops s.nextId (fun o => { o with phase := DriverPhase.terminated }) }
      s.nextId DriverAction.removeSelf).ops s.nextId
      = some (OpState.mk DriverPhase.terminated false [] none 0)
    rw [applyAction_removeSelf_ops]
    show lookupOp (updateOp s1.ops s.nextId (fun o => { o with phase := DriverPhase.terminated }))
      s.nextId = some (OpState.mk DriverPhase.terminated false [] none 0)
    rw [lookupOp_updateOp_self, hl1]
    rfl
  have hs2 : SysInv (sysDeliver s1 s.nextId e) := sysInv_deliver hs1 s.nextId e
  have hl3 : lookupOp (sysRun (sysDeliver s1 s.nextId e) evs2).ops s.nextId
      = some (OpState.mk DriverPhase.terminated false [] none 0) :=
    terminated_frame_run hs2 hl2 rfl evs2
  have hs3 : SysInv (sysRun (sysDeliver s1 s.nextId e) evs2) := sysInv_run hs2 evs2
  have hnm : s.nextId ∉ (sysRun (sysDeliver s1 s.nextId e) evs2).registry :=
    not_mem_registry_of_terminated hs3 hl3 rfl
  refine ⟨s.nextId, s1, hb, ?_, hl3, hnm, sysStop_not_mem hnm, rfl⟩
  show s.nextId ∈ s.nextId :: s.registry
  exact List.mem_cons_self _ _

/-- C1 witness: a concrete run of the decode-failure scenario. -/
theorem claim1_witness :
    (DriverEvent.blockNote 7 ≠ DriverEvent.cancelled) ∧
    (∃ id s1, sysBroadcast (sysRun sysInit []) true false = Except.ok (id, s1) ∧
      id ∈ s1.registry ∧
      lookupOp (sysRun (sysDeliver s1 id (DriverEvent.blockNote 7)) []).ops id
        = some (OpState.mk DriverPhase.terminated false [] none 0) ∧
      id ∉ (sysRun (sysDeliver s1 id (DriverEvent.blockNote 7)) []).registry ∧
      sysStop (sysRun (sysDeliver s1 id (DriverEvent.blockNote 7)) []) id
        = Except.error RpcError.invalidOperationId ∧
      RpcError.invalidOperationId.message = "Invalid operation id") :=
  ⟨by decide, claim1_silent_decode_failure [] (DriverEvent.blockNote 7) (by decide) []⟩

/-- C2: in every reachable state an OperationId is in the Registry exactly
while its driver task is running and uncancelled (invariant I1), and a
tracking driver that receives a terminal pool status transitions to
Terminated with its registry entry removed. -/
theorem claim2_terminal_status_terminates (evs : List SysEvent) :
    (∀ id, id ∈ (sysRun sysInit evs).registry ↔
      ∃ op, lookupOp (sysRun sysInit evs).ops id = some op ∧
        op.phase ≠ DriverPhase.terminated ∧ op.cancelSignalled = false) ∧
    (∀ id op so st, lookupOp (sysRun sysInit evs).ops id = some op →
      op.phase = DriverPhase.tracking so → st.isTerminal = true →
      (∃ op2, lookupOp (sysDeliver (sysRun sysInit evs) id (DriverEvent.statusUpdate st)).ops id
          = some op2 ∧ op2.phase = DriverPhase.terminated) ∧
      id ∉ (sysDeliver (sysRun sysInit evs) id (DriverEvent.statusUpdate st)).registry) := by
  set s := sysRun sysInit evs with hsdef
  have hs : SysInv s := sysInv_reachable evs
  constructor
  · intro id
    rw [hs.2.2.1 id, runningOf_eq_true]
  · intro id op so st hl hph hterm
    have hg : ¬(DriverEvent.statusUpdate st = DriverEvent.cancelled
        ∧ op.cancelSignalled = false) := by
      intro hc
      cases hc.1
    have hstep : driverStep op.phase (DriverEvent.statusUpdate st)
        = (DriverPhase.terminated, [DriverAction.removeSelf]) := by
      rw [hph]
      simp [driverStep, hterm]
    have hd := sysDeliver_eq hl hg
    rw [hstep] at hd
    dsimp only at hd
    have hl2 : lookupOp (sysDeliver s id (DriverEvent.statusUpdate st)).ops id
        = some { op with phase := DriverPhase.terminated } := by
      rw [hd]
      show lookupOp (applyAction
        { s with ops := updateOp s.ops id (fun o => { o with phase := DriverPhase.terminated }) }
        id DriverAction.removeSelf).ops id = some { op with phase := DriverPhase.terminated }
      rw [applyAction_removeSelf_ops]
      show lookupOp (updateOp s.ops id (fun o => { o with phase := DriverPhase.terminated })) id
        = some { op with phase := DriverPhase.terminated }
      rw [lookupOp_updateOp_self, hl]
      rfl
    have hs2 : SysInv (sysDeliver s id (DriverEvent.statusUpdate st)) :=
      sysInv_deliver hs id (DriverEvent.statusUpdate st)
    exact ⟨⟨{ op with phase := DriverPhase.terminated }, hl2, rfl⟩,
      not_mem_registry_of_terminated hs2 hl2 rfl⟩

/-- C2 witness: a concrete tracking driver receives Finalized, terminates and
leaves the registry. -/
theorem claim2_witness :
    lookupOp (sysRun sysInit [SysEvent.broadcastReq true true,
        SysEvent.drv 0 (DriverEvent.blockNote 1)]).ops 0
      = some (OpState.mk (DriverPhase.tracking true) false [1] none 0) ∧
    (TransactionStatus.finalized 2 0).isTerminal = true ∧
    ((∃ op2, lookupOp (sysDeliver (sysRun sysInit [SysEvent.broadcastReq true true,
          SysEvent.drv 0 (DriverEvent.blockNote 1)]) 0
          (DriverEvent.statusUpdate (TransactionStatus.finalized 2 0))).ops 0
        = some op2 ∧ op2.phase = DriverPhase.terminated) ∧
      0 ∉ (sysDeliver (sysRun sysInit [SysEvent.broadcastReq true true,
          SysEvent.drv 0 (DriverEvent.blockNote 1)]) 0
          (DriverEvent.statusUpdate (TransactionStatus.finalized 2 0))).registry) :=
  ⟨by rfl, by decide,
    (claim2_terminal_status_terminates [SysEvent.broadcastReq true true,
      SysEvent.drv 0 (DriverEvent.blockNote 1)]).2 0
      (OpState.mk (DriverPhase.tracking true) false [1] none 0) true
      (TransactionStatus.finalized 2 0) (by rfl) rfl (by decide)⟩

/-- C3: in every reachable state, stop(id) fails with InvalidOperationId
("Invalid operation id") exactly when the id is not currently in the Registry
— which happens exactly when the id was never issued (no driver table entry),
its driver already terminated, or it was already cancelled — and stop
succeeds on every currently-live id. -/
theorem claim3_stop_iff_not_live (evs : List SysEvent) (id : Nat) :
    ((sysStop (sysRun sysInit evs) id = Except.error RpcError.invalidOperationId) ↔
      id ∉ (sysRun sysInit evs).registry) ∧
    (id ∉ (sysRun sysInit evs).registry ↔
      (lookupOp (sysRun sysInit evs).ops id = none ∨
        ∃ op, lookupOp (sysRun sysInit evs).ops id = some op ∧
          (op.phase = DriverPhase.terminated ∨ op.cancelSignalled = true))) ∧
    (id ∈ (sysRun sysInit evs).registry →
      ∃ s1, sysStop (sysRun sysInit evs) id = Except.ok s1) ∧
    RpcError.invalidOperationId.message = "Invalid operation id" := by
  set s := sysRun sysInit evs with hsdef
  have hs : SysInv s := sysInv_reachable evs
  refine ⟨⟨?_, sysStop_not_mem⟩, ⟨?_, ?_⟩, ?_, rfl⟩
  · intro herr hmem
    rw [sysStop_mem hmem] at herr
    simp at herr
  · intro hnm
    cases hl : lookupOp s.ops id with
    | none => exact Or.inl rfl
    | some op =>
      refine Or.inr ⟨op, rfl, ?_⟩
      by_contra hcon
      push_neg at hcon
      apply hnm
      refine (hs.2.2.1 id).mpr (runningOf_eq_true.mpr ⟨op, hl, hcon.1, ?_⟩)
      cases hsig : op.cancelSignalled with
      | false => rfl
      | true => exact absurd hsig hcon.2
  · rintro (hnone | ⟨op, hl, hcond⟩) hmem
    · obtain ⟨op, hl, h1, h2⟩ := runningOf_eq_true.mp ((hs.2.2.1 id).mp hmem)
      rw [hl] at hnone
      cases hnone
    · obtain ⟨op2, hl2, hph2, hsig2⟩ := runningOf_eq_true.mp ((hs.2.2.1 id).mp hmem)
      have heq : op = op2 := Option.some.inj (hl.symm.trans hl2)
      subst heq
      rcases hcond with h4 | h4
      · exact hph2 h4
      · rw [hsig2] at h4
        cases h4
  · intro hmem
    exact ⟨_, sysStop_mem hmem⟩

/-- C3 witness: stop succeeds on a live id and fails on a never-issued id. -/
theorem claim3_witness :
    (0 ∈ (sysRun sysInit [SysEvent.broadcastReq true true]).registry →
      ∃ s1, sysStop (sysRun sysInit [SysEvent.broadcastReq true true]) 0 = Except.ok s1) ∧
    ((sysStop (sysRun sysInit []) 5 = Except.error RpcError.invalidOperationId) ↔
      5 ∉ (sysRun sysInit []).registry) :=
  ⟨(claim3_stop_iff_not_live [SysEvent.broadcastReq true true] 0).2.2.1,
    (claim3_stop_iff_not_live [] 5).1⟩

/-- C7: each OperationId's registry entry is effectively removed at most once
— exactly once as soon as its driver has terminated or it has been cancelled,
and never before — so a second stop on the same id always observes "not
found" (InvalidOperationId), never double-signals and never double-removes:
the removal count stays exactly one through every later run. -/
theorem claim7_removal_exactly_once (evs : List SysEvent) (id : Nat) :
    ((sysRun sysInit evs).removals.count id
        = if removedOf (sysRun sysInit evs).ops id = true then 1 else 0) ∧
    ((sysRun sysInit evs).removals.count id ≤ 1) ∧
    (∀ s1, sysStop (sysRun sysInit evs) id = Except.ok s1 →
      sysStop s1 id = Except.error RpcError.invalidOperationId ∧
      s1.removals.count id = 1 ∧
      ∀ evs2, (sysRun s1 evs2).removals.count id = 1) := by
  set s := sysRun sysInit evs with hsdef
  have hs : SysInv s := sysInv_reachable evs
  have hcnt := hs.2.2.2 id
  refine ⟨hcnt, ?_, ?_⟩
  · rw [hcnt]
    split <;> decide
  · intro s1 hok
    by_cases hmem : id ∈ s.registry
    · rw [sysStop_mem hmem] at hok
      have hs1eq : ({ s with
          registry := s.registry.filter (fun x => x ≠ id)
          removals := id :: s.removals
          ops := updateOp s.ops id (fun op => { op with cancelSignalled := true }) } : Sys)
          = s1 := Except.ok.inj hok
      obtain ⟨op, hl, hph, hsig⟩ := runningOf_eq_true.mp ((hs.2.2.1 id).mp hmem)
      have hl2 : lookupOp (updateOp s.ops id
          (fun op => { op with cancelSignalled := true })) id
          = some { op with cancelSignalled := true } := by
        rw [lookupOp_updateOp_self, hl]
        rfl
      have hcount0 : s.removals.count id = 0 := by
        have h2 := hs.2.2.2 id
        rw [removedOf_some hl, hsig] at h2
        simp only [Bool.or_false] at h2
        rw [h2]
        simp [hph]
      have hnm2 : id ∉ s.registry.filter (fun x => x ≠ id) := by
        simp [List.mem_filter]
      have hs1 : SysInv s1 := sysInv_stop hs (by rw [sysStop_mem hmem, hs1eq])
      have hrm : removedOf s1.ops id = true := by
        rw [← hs1eq]
        show removedOf (updateOp s.ops id (fun op => { op with cancelSignalled := true })) id = true
        rw [removedOf_some hl2]
        simp
      refine ⟨?_, ?_, ?_⟩
      · rw [← hs1eq]
        exact sysStop_not_mem hnm2
      · rw [← hs1eq]
        show (id :: s.removals).count id = 1
        simp [hcount0]
      · intro evs2
        have hs3 := sysInv_run hs1 evs2
        have hrm3 := removed_persists_run hs1 hrm evs2
        have h5 := hs3.2.2.2 id
        rw [hrm3] at h5
        simpa using h5
    · rw [sysStop_not_mem hmem] at hok
      cases hok

/-- C7 witness: stopping a live operation removes exactly once; a second stop
observes InvalidOperationId and the removal count stays one. -/
theorem claim7_witness :
    sysStop (sysRun sysInit [SysEvent.broadcastReq true true]) 0
      = Except.ok (Sys.mk 1 [] [(0, OpState.mk DriverPhase.awaitingFirstBlock true [] none 0)] [0]) ∧
    (sysStop (Sys.mk 1 [] [(0, OpState.mk DriverPhase.awaitingFirstBlock true [] none 0)] [0]) 0
        = Except.error RpcError.invalidOperationId ∧
      (Sys.mk 1 [] [(0, OpState.mk DriverPhase.awaitingFirstBlock true [] none 0)] [0]).removals.count 0 = 1 ∧
      ∀ evs2, (sysRun (Sys.mk 1 [] [(0, OpState.mk DriverPhase.awaitingFirstBlock true [] none 0)] [0]) evs2).removals.count 0 = 1) :=
  ⟨by rfl, (claim7_removal_exactly_once [SysEvent.broadcastReq true true] 0).2.2
    (Sys.mk 1 [] [(0, OpState.mk DriverPhase.awaitingFirstBlock true [] none 0)] [0]) (by rfl)⟩

/-- C8: a tracking driver whose status stream closed without a terminal event
resubmits on the next best-block event and obtains a fresh status stream
(back to tracking with the stream open, its submission list extended by the
new block), and the operation stays live: the registry is untouched by both
steps and still holds the id. -/
theorem claim8_eviction_recovery (evs : List SysEvent) (id : Nat) (op : OpState) (b : Nat)
    (hl : lookupOp (sysRun sysInit evs).ops id = some op)
    (hph : op.phase = DriverPhase.tracking true)
    (hsig : op.cancelSignalled = false) :
    (∃ op2, lookupOp (sysDeliver (sysRun sysInit evs) id DriverEvent.streamClosed).ops id
        = some op2 ∧ op2.phase = DriverPhase.tracking false ∧ op2.submits = op.submits) ∧
    (∃ op3, lookupOp (sysDeliver (sysDeliver (sysRun sysInit evs) id DriverEvent.streamClosed) id
          (DriverEvent.blockNote b)).ops id = some op3 ∧
      op3.phase = DriverPhase.tracking true ∧ op3.submits = op.submits ++ [b]) ∧
    (sysDeliver (sysDeliver (sysRun sysInit evs) id DriverEvent.streamClosed) id
        (DriverEvent.blockNote b)).registry = (sysRun sysInit evs).registry ∧
    id ∈ (sysDeliver (sysDeliver (sysRun sysInit evs) id DriverEvent.streamClosed) id
        (DriverEvent.blockNote b)).registry := by
  set s := sysRun sysInit evs with hsdef
  have hs : SysInv s := sysInv_reachable evs
  have hg1 : ¬(DriverEvent.streamClosed = DriverEvent.cancelled
      ∧ op.cancelSignalled = false) := by
    intro hc
    cases hc.1
  have hstep1 : driverStep op.phase DriverEvent.streamClosed
      = (DriverPhase.tracking false, []) := by
    rw [hph]
    rfl
  have hd1 := sysDeliver_eq hl hg1
  rw [hstep1] at hd1
  dsimp only at hd1
  have hs2eq : sysDeliver s id DriverEvent.streamClosed
      = { s with ops := updateOp s.ops id (fun o => { o with phase := DriverPhase.tracking false }) } := hd1
  have hl2 : lookupOp (sysDeliver s id DriverEvent.streamClosed).ops id
      = some { op with phase := DriverPhase.tracking false } := by
    rw [hs2eq]
    show lookupOp (updateOp s.ops id (fun o => { o with phase := DriverPhase.tracking false })) id
      = some { op with phase := DriverPhase.tracking false }
    rw [lookupOp_updateOp_self, hl]
    rfl
  have hg2 : ¬(DriverEvent.blockNote b = DriverEvent.cancelled ∧
      ({ op with phase := DriverPhase.tracking false } : OpState).cancelSignalled = false) := by
    intro hc
    cases hc.1
  have hstep2 : driverStep ({ op with phase := DriverPhase.tracking false } : OpState).phase
      (DriverEvent.blockNote b) = (DriverPhase.tracking true, [DriverAction.submit b]) := rfl
  have hd2 := sysDeliver_eq hl2 hg2
  rw [hstep2] at hd2
  dsimp only at hd2
  have hs3eq : sysDeliver (sysDeliver s id DriverEvent.streamClosed) id (DriverEvent.blockNote b)
      = { (sysDeliver s id DriverEvent.streamClosed) with
          ops := updateOp (updateOp (sysDeliver s id DriverEvent.streamClosed).ops id
              (fun o => { o with phase := DriverPhase.tracking true })) id
            (fun o => { o with submits := o.submits ++ [b] }) } := hd2
  rw [updateOp_comp] at hs3eq
  have hl3 : lookupOp (sysDeliver (sysDeliver s id DriverEvent.streamClosed) id
      (DriverEvent.blockNote b)).ops id
      = some { op with phase := DriverPhase.tracking true, submits := op.submits ++ [b] } := by
    rw [hs3eq]
    show lookupOp (updateOp (sysDeliver s id DriverEvent.streamClosed).ops id _) id = _
    rw [lookupOp_updateOp_self, hl2]
    rfl
  have hreg3 : (sysDeliver (sysDeliver s id DriverEvent.streamClosed) id
      (DriverEvent.blockNote b)).registry = s.registry := by
    rw [hs3eq, hs2eq]
  have hmem : id ∈ s.registry := by
    refine (hs.2.2.1 id).mpr (runningOf_eq_true.mpr ⟨op, hl, ?_, hsig⟩)
    rw [hph]
    simp
  refine ⟨⟨{ op with phase := DriverPhase.tracking false }, hl2, rfl, rfl⟩,
    ⟨{ op with phase := DriverPhase.tracking true, submits := op.submits ++ [b] }, hl3, rfl, rfl⟩,
    hreg3, ?_⟩
  rw [hreg3]
  exact hmem

/-- C8 witness: a concrete driver loses its stream and resubmits at block 2,
staying live. -/
theorem claim8_witness :
    lookupOp (sysRun sysInit [SysEvent.broadcastReq true true,
        SysEvent.drv 0 (DriverEvent.blockNote 1)]).ops 0
      = some (OpState.mk (DriverPhase.tracking true) false [1] none 0) ∧
    ((∃ op2, lookupOp (sysDeliver (sysRun sysInit [SysEvent.broadcastReq true true,
          SysEvent.drv 0 (DriverEvent.blockNote 1)]) 0 DriverEvent.streamClosed).ops 0
        = some op2 ∧ op2.phase = DriverPhase.tracking false ∧ op2.submits = [1]) ∧
    (∃ op3, lookupOp (sysDeliver (sysDeliver (sysRun sysInit [SysEvent.broadcastReq true true,
          SysEvent.drv 0 (DriverEvent.blockNote 1)]) 0 DriverEvent.streamClosed) 0
          (DriverEvent.blockNote 2)).ops 0 = some op3 ∧
      op3.phase = DriverPhase.tracking true ∧ op3.submits = [1] ++ [2]) ∧
    (sysDeliver (sysDeliver (sysRun sysInit [SysEvent.broadcastReq true true,
        SysEvent.drv 0 (DriverEvent.blockNote 1)]) 0 DriverEvent.streamClosed) 0
        (DriverEvent.blockNote 2)).registry
      = (sysRun sysInit [SysEvent.broadcastReq true true,
        SysEvent.drv 0 (DriverEvent.blockNote 1)]).registry ∧
    0 ∈ (sysDeliver (sysDeliver (sysRun sysInit [SysEvent.broadcastReq true true,
        SysEvent.drv 0 (DriverEvent.blockNote 1)]) 0 DriverEvent.streamClosed) 0
        (DriverEvent.blockNote 2)).registry) :=
  ⟨by rfl, claim8_eviction_recovery [SysEvent.broadcastReq true true,
    SysEvent.drv 0 (DriverEvent.blockNote 1)] 0
    (OpState.mk (DriverPhase.tracking true) false [1] none 0) 2 (by rfl) rfl rfl⟩

/-- C9: cancellation is reacted to in a single driver step from every
non-terminated phase (the driver races its three sources, so a deliverable
cancellation terminates it without waiting on the silent stream or block
source), and after a successful stop of a live operation the cancellation
signal is set and one observation of it finishes the driver task. -/
theorem claim9_prompt_cancellation (evs : List SysEvent) (id : Nat) (s1 : Sys)
    (hok : sysStop (sysRun sysInit evs) id = Except.ok s1) :
    (∀ ph, ph ≠ DriverPhase.terminated →
      (driverStep ph DriverEvent.cancelled).1 = DriverPhase.terminated) ∧
    (∃ op, lookupOp s1.ops id = some op ∧ op.cancelSignalled = true ∧
      op.phase ≠ DriverPhase.terminated) ∧
    (∃ op2, lookupOp (sysDeliver s1 id DriverEvent.cancelled).ops id = some op2 ∧
      op2.phase = DriverPhase.terminated) := by
  set s := sysRun sysInit evs with hsdef
  have hs : SysInv s := sysInv_reachable evs
  have hone : ∀ ph, ph ≠ DriverPhase.terminated →
      (driverStep ph DriverEvent.cancelled).1 = DriverPhase.terminated := by
    intro ph hph
    cases ph with
    | decodeFailedPending => rfl
    | awaitingFirstBlock => rfl
    | tracking so => cases so <;> rfl
    | terminated => exact absurd rfl hph
  by_cases hmem : id ∈ s.registry
  · rw [sysStop_mem hmem] at hok
    have hs1eq := Except.ok.inj hok
    obtain ⟨op, hl, hph, hsig⟩ := runningOf_eq_true.mp ((hs.2.2.1 id).mp hmem)
    have hl1 : lookupOp s1.ops id = some { op with cancelSignalled := true } := by
      rw [← hs1eq]
      show lookupOp (updateOp s.ops id (fun op => { op with cancelSignalled := true })) id
        = some { op with cancelSignalled := true }
      rw [lookupOp_updateOp_self, hl]
      rfl
    have hg : ¬(DriverEvent.cancelled = DriverEvent.cancelled ∧
        ({ op with cancelSignalled := true } : OpState).cancelSignalled = false) := by
      intro hc
      have h2 := hc.2
      simp at h2
    have hd := sysDeliver_eq hl1 hg
    have hterm : (driverStep ({ op with cancelSignalled := true } : OpState).phase
        DriverEvent.cancelled).1 = DriverPhase.terminated :=
      hone op.phase hph
    have hl2 : lookupOp ({ s1 with ops := updateOp s1.ops id (fun o => { o with phase := (driverStep ({ op with cancelSignalled := true } : OpState).phase DriverEvent.cancelled).1 }) } : Sys).ops id
        = some { op with cancelSignalled := true, phase := (driverStep ({ op with cancelSignalled := true } : OpState).phase DriverEvent.cancelled).1 } := by
      show lookupOp (updateOp s1.ops id (fun o => { o with phase := (driverStep ({ op with cancelSignalled := true } : OpState).phase DriverEvent.cancelled).1 })) id = _
      rw [lookupOp_updateOp_self, hl1]
      rfl
    obtain ⟨op2, h3, h4, h5⟩ := applyActions_lookup_self _ _ _ hl2
    refine ⟨hone, ⟨{ op with cancelSignalled := true }, hl1, rfl, hph⟩, ⟨op2, ?_, ?_⟩⟩
    · rw [hd]
      exact h3
    · rw [h4]
      exact hterm
  · rw [sysStop_not_mem hmem] at hok
    cases hok

/-- C9 witness: stopping the concrete live operation 0 signals cancellation
and one observed cancellation terminates its driver. -/
theorem claim9_witness :
    sysStop (sysRun sysInit [SysEvent.broadcastReq true true]) 0
      = Except.ok (Sys.mk 1 [] [(0, OpState.mk DriverPhase.awaitingFirstBlock true [] none 0)] [0]) ∧
    ((∀ ph, ph ≠ DriverPhase.terminated →
        (driverStep ph DriverEvent.cancelled).1 = DriverPhase.terminated) ∧
      (∃ op, lookupOp (Sys.mk 1 []
          [(0, OpState.mk DriverPhase.awaitingFirstBlock true [] none 0)] [0]).ops 0
        = some op ∧ op.cancelSignalled = true ∧ op.phase ≠ DriverPhase.terminated) ∧
      (∃ op2, lookupOp (sysDeliver (Sys.mk 1 []
          [(0, OpState.mk DriverPhase.awaitingFirstBlock true [] none 0)] [0]) 0
          DriverEvent.cancelled).ops 0 = some op2 ∧
        op2.phase = DriverPhase.terminated)) :=
  ⟨by rfl, claim9_prompt_cancellation [SysEvent.broadcastReq true true] 0 _ (by rfl)⟩
